import Mathlib

/-!
# ANT / NNm: the softmax-MLE output layer and the network shell

A shallow embedding of `src/NNm/stratum.h`, `src/NNm/MLE.h` and `src/NNm/NNm.h`.

* Raw buffers (`IEEE_t *`) are lists; a pointer into a buffer is an index. Reading past the
  end of a buffer yields `0` and writing past the end leaves the buffer as it is (both are
  undefined in C++ and never happen on well-formed layers).
* Scalars are an arbitrary type `α`; the algebraic results are stated over commutative rings
  (exact arithmetic) and the analytic ones over `ℝ`.
* `int` dimensions are natural numbers.
* Functions of the C library (`sqrt`, `exp`, `tanh`, `log`, `rand`) and members of classes whose
  headers are not among the sources are parameters, or are modelled from the specification
  where their doc comment says so.
-/

namespace ANT

/-! ## Data model -/

/-- Modelled from the spec: `NeuralM_t` (header `NeuralM.h`) is not among the sources. The spec
treats it as dense matrix storage; the sources use `rows ()`, `columns ()`, `raw ()`/`sm_data`
and `zero ()`. Storage is row-major: entry `(i, j)` lives at `sm_data[i * columns + j]`. -/
structure NeuralM_t (α : Type) where
  rows : Nat
  columns : Nat
  sm_data : List α
deriving DecidableEq

namespace NeuralM_t

variable {α : Type}

/-- Modelled from the spec: the constructor `NeuralM_t (rows, columns)` is not among the
sources. It allocates `rows * columns` scalars; their initial value is unspecified and
taken as `0` here (no result below depends on it). -/
def new [Zero α] (rows columns : Nat) : NeuralM_t α :=
  { rows := rows, columns := columns, sm_data := List.replicate (rows * columns) 0 }

/-- Modelled from the spec: `NeuralM_t::zero` ("elementwise zero") is not among the sources. -/
def zero [Zero α] (M : NeuralM_t α) : NeuralM_t α :=
  { M with sm_data := M.sm_data.map (fun _ => 0) }

/-- The accessor `raw ()`: the underlying buffer. -/
def raw (M : NeuralM_t α) : List α := M.sm_data

end NeuralM_t

/-- Interface of `strategy_t` (header `strategy.h`, not among the sources). A strategy is
built over the raw weight and gradient buffers of its layer; `_tAPI_strategy` reads and
rewrites both. The optimiser's private state is folded into the function. -/
structure strategy_t (α : Type) where
  _tAPI_strategy : List α → List α → List α × List α

/-- The factory type `StrategyAlloc_t`: called as `(*rule) (K, Nin + 1, W.raw (), dL.raw ())`;
the two buffers are handed to `_tAPI_strategy` when the strategy runs. -/
abbrev StrategyAlloc_t (α : Type) := Nat → Nat → strategy_t α

/-- The base class `stratum_t` of `stratum.h` (the `shape_t` base, whose header is not among
the sources, is left out: nothing below reads it). -/
structure stratum_t (α : Type) where
  s_Name : Option String
  s_ID : Int
  s_Nnodes : Nat
  s_Nin : Nat
  s_delta : NeuralM_t α
  s_response : NeuralM_t α
  s_strat : Option (strategy_t α)
  s_frozen : Bool

namespace stratum_t

variable {α : Type}

/-- The constructor `stratum_t (namep, ID, N, Nin)`, `stratum.h` lines 86-99. -/
def new [Zero α] (namep : Option String) (ID : Int) (N Nin : Nat) : stratum_t α :=
  { s_Name := namep
    s_ID := ID
    s_Nnodes := N
    s_Nin := Nin
    s_delta := (NeuralM_t.new N 1).zero
    s_response := (NeuralM_t.new N 1).zero
    s_strat := none
    s_frozen := true }

/-- The method `Thaw`. -/
def Thaw (self : stratum_t α) : stratum_t α := { self with s_frozen := false }

/-- The method `Freeze`. -/
def Freeze (self : stratum_t α) : stratum_t α := { self with s_frozen := true }

/-- The base implementation of `_sAPI_Trainable`, `stratum.h` lines 168-172. -/
def _sAPI_Trainable (_self : stratum_t α) : Int := 0

end stratum_t

/-- Modelled from the spec: `Softmax_t` is not among the sources. It is built from the class
count `K` and holds the probability distribution computed by the last forward pass. -/
structure Softmax_t (α : Type) where
  sm_K : Nat
  sm_P : List α

namespace Softmax_t

variable {α : Type}

/-- Modelled from the spec: the constructor `Softmax_t (K)`, not among the sources. -/
def new [Zero α] (K : Nat) : Softmax_t α := { sm_K := K, sm_P := List.replicate K 0 }

/-- The accessor `K ()`. -/
def K (self : Softmax_t α) : Nat := self.sm_K

end Softmax_t

/-- The class `SoftmaxMLE_t` of `MLE.h`: a `stratum_t` with a weight matrix, a gradient
accumulator of the same shape, the softmax state and the last guess. -/
structure SoftmaxMLE_t (α : Type) extends stratum_t α where
  ml_W : NeuralM_t α
  ml_dL : NeuralM_t α
  ml_softm : Softmax_t α
  ml_guess : α

/-- The write `*p++ += v` at index `p` of a buffer (the caller advances `p`). -/
def addAt {α : Type} [Add α] (buf : List α) (p : Nat) (v : α) : List α :=
  match buf[p]? with
  | some old => buf.set p (old + v)
  | none => buf

namespace SoftmaxMLE_t

variable {α : Type}

/-- The constructor `SoftmaxMLE_t (ID, K, Nin, rule)`, `MLE.h` lines 53-64. -/
def new [Zero α] [One α] [Neg α] (ID : Int) (K Nin : Nat) (rule : StrategyAlloc_t α) :
    SoftmaxMLE_t α :=
  { stratum_t.new (some "softmax") ID K (Nin + 1) with   -- account for bias
    ml_W := NeuralM_t.new K (Nin + 1)
    ml_dL := NeuralM_t.new K (Nin + 1)
    ml_softm := Softmax_t.new K
    ml_guess := -1
    s_strat := some (rule K (Nin + 1)) }

/-- The method `_sAPI_bprop (xi, activation)`, `MLE.h` lines 109-134. The state of the two
nested loops is the accumulator buffer together with the running pointer `dL`. -/
def _sAPI_bprop [Zero α] [Add α] [Mul α] (self : SoftmaxMLE_t α) (xi : List α)
    (_activation : Bool) : SoftmaxMLE_t α :=
  let st := (List.range self.s_Nnodes).foldl
    (fun (st : List α × Nat) i =>
      let delta := self.s_delta.sm_data.getD i 0
      let st := (addAt st.1 st.2 delta, st.2 + 1)   -- the bias
      (List.range' 1 (self.s_Nin - 1)).foldl
        (fun (st : List α × Nat) j => (addAt st.1 st.2 (delta * xi.getD (j - 1) 0), st.2 + 1))
        st)
    (self.ml_dL.sm_data, 0)
  { self with ml_dL := { self.ml_dL with sm_data := st.1 } }

/-- The method `_sAPI_strategy`, `stratum.h` lines 145-149, as `SoftmaxMLE_t` inherits it. The
strategy was built over `ml_W.raw ()` and `ml_dL.raw ()`, so that is where its writes land. -/
def _sAPI_strategy (self : SoftmaxMLE_t α) : SoftmaxMLE_t α :=
  match self.s_strat with
  | some strat =>
    let r := strat._tAPI_strategy self.ml_W.sm_data self.ml_dL.sm_data
    { self with
      ml_W := { self.ml_W with sm_data := r.1 }
      ml_dL := { self.ml_dL with sm_data := r.2 } }
  | none => self

/-- The method `Thaw` of the base class on a softmax/MLE layer. -/
def Thaw (self : SoftmaxMLE_t α) : SoftmaxMLE_t α :=
  { self with tostratum_t := self.tostratum_t.Thaw }

/-- The method `Freeze` of the base class on a softmax/MLE layer. -/
def Freeze (self : SoftmaxMLE_t α) : SoftmaxMLE_t α :=
  { self with tostratum_t := self.tostratum_t.Freeze }

/-- The method `_sAPI_Trainable` on a softmax/MLE layer: `SoftmaxMLE_t` (`MLE.h` lines 43-101)
does not override it, so the call resolves to the base implementation. -/
def _sAPI_Trainable (self : SoftmaxMLE_t α) : Int :=
  self.tostratum_t._sAPI_Trainable

/-- The C library's `rand ()`: the random source is the stream of the values it will return,
each between `0` and `RAND_MAX`; a call takes the first and leaves the rest. -/
def rand {RAND_MAX : Nat} (src : Nat → Fin (RAND_MAX + 1)) :
    Nat × (Nat → Fin (RAND_MAX + 1)) :=
  ((src 0).val, fun n => src (n + 1))

/-- The body of the two loops of `_sAPI_init`, `MLE.h` lines 82-86: draw a sample, scale it by
`r`, flip its sign on an odd second draw, store it at the pointer and advance. The state is
the weight buffer, the pointer `p` and the random source. -/
def initStep [Field α] (RAND_MAX : Nat) (r : α)
    (st : List α × Nat × (Nat → Fin (RAND_MAX + 1))) : List α × Nat × (Nat → Fin (RAND_MAX + 1)) :=
  let d1 := rand st.2.2
  let sample : α := (d1.1 : α) / (RAND_MAX : α)
  let sample := sample * r
  let d2 := rand d1.2
  let sample := if d2.1 % 2 ≠ 0 then -sample else sample
  (st.1.set st.2.1 sample, st.2.1 + 1, d2.2)

/-- The method `_sAPI_init`, `MLE.h` lines 70-90. `sqrt` is the C library's; the random source
is threaded through and returned. -/
def _sAPI_init [Field α] (sqrt : α → α) (RAND_MAX : Nat) (self : SoftmaxMLE_t α)
    (src : Nat → Fin (RAND_MAX + 1)) : SoftmaxMLE_t α × (Nat → Fin (RAND_MAX + 1)) :=
  let Nout := self.ml_softm.K
  -- Glorot, W ~ [-r, r]
  let r : α := sqrt (6 / ((Nout + self.s_Nin : Nat) : α))
  let st := (List.range self.ml_W.rows).reverse.foldl
    (fun st _i => (List.range self.ml_W.columns).reverse.foldl
      (fun st _j => initStep RAND_MAX r st) st)
    (self.ml_W.raw, 0, src)
  ({ self with
     ml_W := { self.ml_W with sm_data := st.1 }
     ml_dL := self.ml_dL.zero }, st.2.2)

end SoftmaxMLE_t

/-! ## Floating-point values and the loss -/

/-- Modelled from the spec: the typedef `IEEE_t` (header `NeuralM.h`) is not among the sources.
It is a floating-point type: a value is a finite number, an infinity of either sign, or
not-a-number. This model is used where the code tests `isnan`/`isinf`. -/
inductive IEEE_t where
  | finite (v : ℚ)
  | infinite (negative : Bool)
  | nan
deriving DecidableEq

namespace IEEE_t

/-- The C library's `isnan`. -/
def isnan : IEEE_t → Bool
  | nan => true
  | _ => false

/-- The C library's `isinf`. -/
def isinf : IEEE_t → Bool
  | infinite _ => true
  | _ => false

/-- Unary minus on floating-point values. -/
def neg : IEEE_t → IEEE_t
  | finite v => finite (-v)
  | infinite negative => infinite (!negative)
  | nan => nan

end IEEE_t

namespace SoftmaxMLE_t

/-- The method `_sAPI_Loss (answers)`, `MLE.h` lines 146-156. `log` is the C library's; `P` and
`bprop` are the members `Softmax_t::P` and `Softmax_t::bprop`, whose class is not among the
sources. The result is the returned loss and the layer with the error signal `bprop` wrote. -/
def _sAPI_Loss (log : IEEE_t → IEEE_t) (P : Softmax_t IEEE_t → IEEE_t → IEEE_t)
    (bprop : Softmax_t IEEE_t → IEEE_t → List IEEE_t → List IEEE_t)
    (self : SoftmaxMLE_t IEEE_t) (answers : List IEEE_t) : IEEE_t × SoftmaxMLE_t IEEE_t :=
  let loss := IEEE_t.neg (log (P self.ml_softm (answers.headD IEEE_t.nan)))
  let loss := if loss.isnan || loss.isinf then IEEE_t.finite 1000000 else loss
  (loss,
   { self with
     s_delta := { self.s_delta with
       sm_data := bprop self.ml_softm (answers.headD IEEE_t.nan) self.s_delta.raw } })

end SoftmaxMLE_t

/-! ## Activation policies -/

/-- The activation policy compiled into the build: `__TANH_ACT_FN`, `__RELU`, `__IDENTITY`, or
none of them (the sigmoid). -/
inductive Activation where
  | sigmoid
  | tanh
  | relu
  | identity
deriving DecidableEq

section ActivationFns

variable {α : Type} [LinearOrderedField α]

/-- The macro `SIGMOID_FN(X)`, `stratum.h` line 39; `exp` is the C library's. -/
def SIGMOID_FN (exp : α → α) (X : α) : α := 1 / (1 + exp (-X))

/-- The macro `SIGMOID_DERIV(Y)`, `stratum.h` line 40. -/
def SIGMOID_DERIV (Y : α) : α := Y * (1 - Y)

/-- The macro `ACTIVATION_FN(X)` under each policy, `stratum.h` lines 42-54; `exp` and `tanh`
are the C library's. -/
def ACTIVATION_FN (exp tanh : α → α) : Activation → α → α
  | Activation.tanh, X => tanh X
  | Activation.relu, X => if X < 0 then 0 else X
  | Activation.identity, X => X
  | Activation.sigmoid, X => SIGMOID_FN exp X

/-- The macro `DERIVATIVE_FN(Y)` under each policy, `stratum.h` lines 42-54. -/
def DERIVATIVE_FN : Activation → α → α
  | Activation.tanh, Y => 1 - Y * Y
  | Activation.relu, Y => if Y > 0 then 1 else 0
  | Activation.identity, _ => 1
  | Activation.sigmoid, Y => SIGMOID_DERIV Y

end ActivationFns

/-! ## The network shell -/

/-- Interface of `DataSet_t` (header `data.h`, not among the sources): the input width and the
per-feature mean and standard deviation, which is all `SetNormalize` asks of it. -/
structure DataSet_t where
  Nin : Nat
  Mean : Nat → IEEE_t
  StdDev : Nat → IEEE_t

/-- The class template `NNet_t` of `NNm.h`, over the type `S` of the strata its allocation rule
returns. A null pointer is `none`. -/
structure NNet_t (S : Type) where
  n_steps : Int
  n_Nin : Nat
  n_Nout : Nat
  n_levels : Nat
  n_width : List Nat
  n_strata : List S
  n_Nweights : Nat
  n_halt : IEEE_t
  n_error : IEEE_t
  n_accuracy : Bool
  n_maxIterations : Int
  n_keepalive : Int
  n_useSGD : Bool
  n_SGDn : IEEE_t
  n_SGDsamples : Option (List Nat)
  n_normalize : Bool
  n_normParams : Option (List IEEE_t)
  n_arg : Option (List IEEE_t)

namespace NNet_t

variable {S : Type}

/-- The constructor `NNet_t (width, levels, alloc)`, `NNm.h` lines 89-128. `width` is read
through `getD` (entry `i` of the array); `init` is the member `stratum_t::init (int)` the
constructor calls on every new stratum, which is not among the sources. The two arrays the
loop fills slot by slot are built in the same order. -/
def new (width : List Nat) (levels : Nat) (alloc : Nat → Nat → S) (init : S → Nat → S) :
    NNet_t S :=
  let n_levels := levels - 1   -- no state for input
  { n_steps := 0
    n_Nin := width.getD 0 0
    n_Nout := width.getD (levels - 1) 0
    n_levels := n_levels
    n_halt := IEEE_t.finite (1 / 100000)
    n_error := IEEE_t.nan
    n_accuracy := false
    n_maxIterations := 5000
    n_keepalive := 100
    n_useSGD := false
    n_SGDn := IEEE_t.nan
    n_SGDsamples := none
    n_normalize := false
    n_normParams := none
    n_arg := none
    n_Nweights := (List.range' 1 (levels - 1)).reverse.foldl
      (fun acc i => acc + width.getD i 0 * (width.getD (i - 1) 0 + 1)) 0   -- + 1 for bias
    n_width := (List.range' 1 n_levels).map (fun i => width.getD i 0)
    n_strata := (List.range' 1 n_levels).map (fun i =>
      init (alloc (width.getD i 0) (width.getD (i - 1) 0))
        (if i < n_levels then width.getD (i + 1) 0 else width.getD i 0)) }

/-- The body of the loop of `SetNormalize`, `NNm.h` lines 212-213, on the parameter array. -/
def storeNorm (D : DataSet_t) (params : List IEEE_t) (i : Nat) : List IEEE_t :=
  (params.set (i * 2) (D.Mean i)).set (i * 2 + 1) (D.StdDev i)

/-- The method `SetNormalize (S)`, `NNm.h` lines 202-215. A failed `assert` ends the run: the
result is then `Except.error` with the network as it is at that moment. `uninit` is the
content of freshly allocated scalars. -/
def SetNormalize (self : NNet_t S) (D : DataSet_t) (uninit : IEEE_t) :
    Except (NNet_t S) (NNet_t S) :=
  if D.Nin ≠ self.n_Nin then Except.error self
  else
    let self := { self with
      n_normalize := true
      n_normParams := some (List.replicate (self.n_Nin * 2) uninit)
      n_arg := some (List.replicate self.n_Nin uninit) }
    Except.ok ((List.range self.n_Nin).foldl
      (fun (net : NNet_t S) i =>
        { net with n_normParams := net.n_normParams.map (fun p => storeNorm D p i) })
      self)

/-- The Network invariant in the words of the specification: the first stratum's input count
is the network's input width, the last stratum's node count is the output width, and each
stratum's input count is its predecessor's node count. -/
def SpecInvariant {α : Type} (net : NNet_t (SoftmaxMLE_t α)) : Prop :=
  (∃ first, net.n_strata[0]? = some first ∧ first.s_Nin = net.n_Nin) ∧
  (∃ last, net.n_strata[net.n_levels - 1]? = some last ∧ last.s_Nnodes = net.n_Nout) ∧
  (∀ i a b, net.n_strata[i]? = some a → net.n_strata[i + 1]? = some b →
    b.s_Nin = a.s_Nnodes)

/-- The invariant the constructors establish: as `SpecInvariant`, with every input count one
more than the width that feeds it, because `s_Nin` counts the bias. -/
def BiasInvariant {α : Type} (net : NNet_t (SoftmaxMLE_t α)) : Prop :=
  (∃ first, net.n_strata[0]? = some first ∧ first.s_Nin = net.n_Nin + 1) ∧
  (∃ last, net.n_strata[net.n_levels - 1]? = some last ∧ last.s_Nnodes = net.n_Nout) ∧
  (∀ i a b, net.n_strata[i]? = some a → net.n_strata[i + 1]? = some b →
    b.s_Nin = a.s_Nnodes + 1)

end NNet_t

/-! ## Auxiliary definitions used by the proofs -/

section Accumulate

variable {α : Type}

/-- One step of a pointer walk: add `v` at the pointer and advance it. -/
def accStep [Add α] (st : List α × Nat) (v : α) : List α × Nat :=
  (addAt st.1 st.2 v, st.2 + 1)

/-- Pointwise sum of a buffer with a list of increments laid over its front. -/
def padAdd [Add α] (buf vals : List α) : List α :=
  List.zipWith (· + ·) buf vals ++ buf.drop vals.length

end Accumulate

namespace SoftmaxMLE_t

variable {α : Type}

/-- The increments one row of `_sAPI_bprop` adds: `delta` for the bias, then `delta * xi[j-1]`. -/
def bpropRow [Zero α] [Mul α] (s_Nin : Nat) (delta : α) (xi : List α) : List α :=
  delta :: (List.range' 1 (s_Nin - 1)).map (fun j => delta * xi.getD (j - 1) 0)

/-- All the increments of one call of `_sAPI_bprop`, in the order the pointer meets them. -/
def bpropVals [Zero α] [Mul α] (s_Nnodes s_Nin : Nat) (delta xi : List α) : List α :=
  (List.range s_Nnodes).flatMap (fun i => bpropRow s_Nin (delta.getD i 0) xi)

/-- The shape a layer has after `SoftmaxMLE_t (ID, K, Nin, rule)`: `K` nodes, `Nin + 1` inputs
(the bias included), weights and accumulator `K x (Nin + 1)`, error signal `K x 1`. -/
structure WellFormed (K Nin : Nat) (L : SoftmaxMLE_t α) : Prop where
  nodes : L.s_Nnodes = K
  inputs : L.s_Nin = Nin + 1
  W_rows : L.ml_W.rows = K
  W_columns : L.ml_W.columns = Nin + 1
  W_length : L.ml_W.sm_data.length = K * (Nin + 1)
  dL_rows : L.ml_dL.rows = K
  dL_columns : L.ml_dL.columns = Nin + 1
  dL_length : L.ml_dL.sm_data.length = K * (Nin + 1)
  delta_rows : L.s_delta.rows = K
  delta_columns : L.s_delta.columns = 1
  delta_length : L.s_delta.sm_data.length = K
  softm_K : L.ml_softm.K = K

/-- One training example as `_sAPI_bprop` meets it: the error signal `e.1` of the example is
in `s_delta` (stored there by `_sAPI_Loss`) when `_sAPI_bprop` runs on the input `e.2`. -/
def accumulateExample [Zero α] [Add α] [Mul α] (L : SoftmaxMLE_t α) (e : List α × List α) :
    SoftmaxMLE_t α :=
  ({ L with s_delta := { L.s_delta with sm_data := e.1 } } : SoftmaxMLE_t α)._sAPI_bprop e.2 true

/-- A batch: the examples are accumulated one after the other. -/
def accumulateBatch [Zero α] [Add α] [Mul α] (L : SoftmaxMLE_t α) (es : List (List α × List α)) :
    SoftmaxMLE_t α :=
  es.foldl accumulateExample L

/-- Entry `j` of the bias-augmented input `(1, x[0], ..., x[Nin-1])`. -/
def augmented [Zero α] [One α] (x : List α) (j : Nat) : α :=
  if j = 0 then 1 else x.getD (j - 1) 0

/-- A plain gradient step, `W[k] - dL[k]`, that zeroes the accumulator: the simplest strategy
with the interface of `strategy_t`. -/
def descent : strategy_t ℤ :=
  { _tAPI_strategy := fun W dL => (List.zipWith (· - ·) W dL, dL.map (fun _ => 0)) }

/-- A layer with 2 nodes and 3 inputs over the integers, as its constructor leaves it but with
error signal `(10, 100)` and accumulator `1, ..., 8`. -/
def sampleLayer : SoftmaxMLE_t ℤ :=
  { SoftmaxMLE_t.new 0 2 3 (fun _ _ => descent) with
    s_delta := { rows := 2, columns := 1, sm_data := [10, 100] }
    ml_dL := { rows := 2, columns := 4, sm_data := [1, 2, 3, 4, 5, 6, 7, 8] } }

end SoftmaxMLE_t

/-! # Theorems -/

/-! ## Proof toolkit for sequential accumulation -/

section Accumulate

variable {α : Type}

theorem addAt_append_cons [Add α] (pre : List α) (b : α) (bs : List α) (v : α) :
    addAt (pre ++ b :: bs) pre.length v = pre ++ (b + v) :: bs := by
  have h : (pre ++ b :: bs)[pre.length]? = some b := by
    rw [List.getElem?_append_right (le_refl _)]
    simp
  unfold addAt
  rw [h]
  simp

theorem addAt_of_length_le [Add α] (buf : List α) (p : Nat) (v : α) (h : buf.length ≤ p) :
    addAt buf p v = buf := by
  simp [addAt, List.getElem?_eq_none h]

theorem foldl_accStep_of_length_le [Add α] (vals : List α) (buf : List α) (p : Nat)
    (h : buf.length ≤ p) :
    vals.foldl accStep (buf, p) = (buf, p + vals.length) := by
  induction vals generalizing p with
  | nil => rfl
  | cons v vs ih =>
    rw [List.foldl_cons]
    simp only [accStep]
    rw [addAt_of_length_le buf p v h, ih (p + 1) (by omega)]
    simp only [List.length_cons]
    congr 1
    omega

theorem foldl_accStep_append [Add α] (vals : List α) (pre buf : List α) :
    vals.foldl accStep (pre ++ buf, pre.length) =
      (pre ++ padAdd buf vals, pre.length + vals.length) := by
  induction vals generalizing pre buf with
  | nil => simp [padAdd]
  | cons v vs ih =>
    cases buf with
    | nil =>
      rw [foldl_accStep_of_length_le _ _ _ (by simp)]
      simp [padAdd]
    | cons b bs =>
      rw [List.foldl_cons]
      simp only [accStep]
      rw [addAt_append_cons]
      have h := ih (pre ++ [b + v]) bs
      simp only [List.length_append, List.length_singleton, List.append_assoc,
        List.singleton_append] at h
      rw [h]
      simp only [padAdd, List.zipWith_cons_cons, List.length_cons, List.drop_succ_cons,
        List.cons_append]
      congr 1
      omega

theorem foldl_accStep_zero [Add α] (vals buf : List α) :
    vals.foldl accStep (buf, 0) = (padAdd buf vals, vals.length) := by
  simpa using foldl_accStep_append vals [] buf

theorem length_padAdd [Add α] (buf vals : List α) : (padAdd buf vals).length = buf.length := by
  simp only [padAdd, List.length_append, List.length_zipWith, List.length_drop]
  omega

theorem getElem?_padAdd [AddZeroClass α] (buf vals : List α) (k : Nat) :
    (padAdd buf vals)[k]? = buf[k]?.map (· + vals.getD k 0) := by
  unfold padAdd
  by_cases hk : k < vals.length
  · by_cases hb : k < buf.length
    · rw [List.getElem?_append_left (by simp [hk, hb])]
      simp [List.getElem?_zipWith, List.getElem?_eq_getElem hb, List.getElem?_eq_getElem hk,
        List.getD_eq_getElem?_getD]
    · have hb' : buf.length ≤ k := by omega
      rw [List.getElem?_append_right (by simp; omega)]
      simp [List.getElem?_eq_none hb']
      omega
  · have hk' : vals.length ≤ k := by omega
    rw [List.getElem?_append_right (by simp; omega)]
    simp only [List.length_zipWith, List.getElem?_drop, List.getD_eq_getElem?_getD,
      List.getElem?_eq_none hk', Option.getD_none, add_zero]
    by_cases hb : buf.length ≤ vals.length
    · have : buf.length ≤ k := by omega
      simp [List.getElem?_eq_none this]
      omega
    · have e : vals.length + (k - min buf.length vals.length) = k := by omega
      rw [e]
      cases buf[k]? <;> simp

theorem foldl_foldl_flatMap {β γ : Type} (f : γ → α → γ) (row : β → List α) (l : List β)
    (st : γ) :
    l.foldl (fun st i => (row i).foldl f st) st = (l.flatMap row).foldl f st := by
  induction l generalizing st with
  | nil => rfl
  | cons a l ih => simp [List.flatMap_cons, List.foldl_append, ih]

theorem getElem?_flatMap_range (row : Nat → List α) (n : Nat) (hrow : ∀ i, (row i).length = n)
    (K i j : Nat) (hi : i < K) (hj : j < n) :
    ((List.range K).flatMap row)[i * n + j]? = (row i)[j]? := by
  have hlen : ∀ K, ((List.range K).flatMap row).length = K * n := by
    intro K
    induction K with
    | zero => simp
    | succ K ih => simp [List.range_succ, List.flatMap_append, ih, hrow, Nat.succ_mul]
  induction K with
  | zero => omega
  | succ K ih =>
    rw [List.range_succ, List.flatMap_append]
    by_cases hiK : i < K
    · rw [List.getElem?_append_left, ih hiK]
      rw [hlen]
      calc i * n + j < i * n + n := by omega
        _ = (i + 1) * n := by ring
        _ ≤ K * n := Nat.mul_le_mul_right n hiK
    · have : i = K := by omega
      subst this
      rw [List.getElem?_append_right (by rw [hlen]; omega), hlen]
      simp

end Accumulate

/-! ## Gradient accumulation (`_sAPI_bprop`) in closed form -/

namespace SoftmaxMLE_t

variable {α : Type}

theorem bprop_data [Zero α] [Add α] [Mul α] (self : SoftmaxMLE_t α) (xi : List α)
    (act : Bool) :
    (self._sAPI_bprop xi act).ml_dL.sm_data =
      padAdd self.ml_dL.sm_data (bpropVals self.s_Nnodes self.s_Nin self.s_delta.sm_data xi) := by
  have hrow : ∀ (st : List α × Nat) (i : Nat),
      (List.range' 1 (self.s_Nin - 1)).foldl
        (fun (st : List α × Nat) j =>
          (addAt st.1 st.2 (self.s_delta.sm_data.getD i 0 * xi.getD (j - 1) 0), st.2 + 1))
        (addAt st.1 st.2 (self.s_delta.sm_data.getD i 0), st.2 + 1) =
      (bpropRow self.s_Nin (self.s_delta.sm_data.getD i 0) xi).foldl accStep st := by
    intro st i
    simp only [bpropRow, List.foldl_cons, List.foldl_map, accStep]
  simp only [_sAPI_bprop, hrow]
  rw [foldl_foldl_flatMap accStep
    (fun i => bpropRow self.s_Nin (self.s_delta.sm_data.getD i 0) xi), foldl_accStep_zero]
  rfl

theorem bprop_frame [Zero α] [Add α] [Mul α] (self : SoftmaxMLE_t α) (xi : List α)
    (act : Bool) :
    self._sAPI_bprop xi act =
      { self with ml_dL := { self.ml_dL with sm_data := (self._sAPI_bprop xi act).ml_dL.sm_data } } :=
  rfl

theorem length_bpropRow [Zero α] [Mul α] (s_Nin : Nat) (delta : α) (xi : List α) :
    (bpropRow s_Nin delta xi).length = s_Nin - 1 + 1 := by
  simp [bpropRow]

theorem getElem?_bpropRow [Zero α] [Mul α] (Nin : Nat) (delta : α) (xi : List α) (j : Nat)
    (hj : j ≤ Nin) :
    (bpropRow (Nin + 1) delta xi)[j]? =
      some (if j = 0 then delta else delta * xi.getD (j - 1) 0) := by
  cases j with
  | zero => simp [bpropRow]
  | succ j =>
    have : j < Nin := by omega
    simp [bpropRow, List.getElem?_range', this]

theorem getD_bpropVals [Zero α] [Mul α] (K Nin : Nat) (delta xi : List α) (i j : Nat)
    (hi : i < K) (hj : j ≤ Nin) :
    (bpropVals K (Nin + 1) delta xi).getD (i * (Nin + 1) + j) 0 =
      if j = 0 then delta.getD i 0 else delta.getD i 0 * xi.getD (j - 1) 0 := by
  unfold bpropVals
  rw [List.getD_eq_getElem?_getD,
    getElem?_flatMap_range (fun i => bpropRow (Nin + 1) (delta.getD i 0) xi) (Nin + 1)
      (fun i => by simp [length_bpropRow]) K i j hi (by omega),
    getElem?_bpropRow Nin _ xi j hj]
  rfl

end SoftmaxMLE_t

namespace SoftmaxMLE_t

variable {α : Type}

theorem wellFormed_new [Zero α] [One α] [Neg α] (ID : Int) (K Nin : Nat)
    (rule : StrategyAlloc_t α) : WellFormed K Nin (SoftmaxMLE_t.new ID K Nin rule) := by
  constructor <;> simp [SoftmaxMLE_t.new, stratum_t.new, NeuralM_t.new, NeuralM_t.zero,
    Softmax_t.new, Softmax_t.K]

theorem getElem?_bprop [CommRing α] (K Nin : Nat) (L : SoftmaxMLE_t α) (x : List α) (act : Bool)
    (hN : L.s_Nnodes = K) (hI : L.s_Nin = Nin + 1) (hlen : L.ml_dL.sm_data.length = K * (Nin + 1))
    (i j : Nat) (hi : i < K) (hj : j ≤ Nin) :
    (L._sAPI_bprop x act).ml_dL.sm_data[i * (Nin + 1) + j]? =
      some (L.ml_dL.sm_data.getD (i * (Nin + 1) + j) 0 +
        L.s_delta.sm_data.getD i 0 * augmented x j) := by
  have hk : i * (Nin + 1) + j < L.ml_dL.sm_data.length := by
    rw [hlen]
    calc i * (Nin + 1) + j < i * (Nin + 1) + (Nin + 1) := by omega
      _ = (i + 1) * (Nin + 1) := by ring
      _ ≤ K * (Nin + 1) := Nat.mul_le_mul_right _ hi
  rw [bprop_data, getElem?_padAdd, hN, hI, getD_bpropVals K Nin _ x i j hi hj,
    List.getElem?_eq_getElem hk, List.getD_eq_getElem _ _ hk]
  by_cases h0 : j = 0 <;> simp [augmented, h0]

theorem padAdd_right_comm [AddCommMonoid α] (buf v w : List α) :
    padAdd (padAdd buf v) w = padAdd (padAdd buf w) v := by
  apply List.ext_getElem?
  intro k
  simp only [getElem?_padAdd, Option.map_map]
  congr 1
  funext a
  simp [add_right_comm]

theorem accumulateExample_dL [Zero α] [Add α] [Mul α] (L : SoftmaxMLE_t α)
    (e : List α × List α) :
    (accumulateExample L e).ml_dL =
      { L.ml_dL with
        sm_data := padAdd L.ml_dL.sm_data (bpropVals L.s_Nnodes L.s_Nin e.1 e.2) } := by
  have h := bprop_data ({ L with s_delta := { L.s_delta with sm_data := e.1 } } : SoftmaxMLE_t α)
    e.2 true
  have hf := bprop_frame ({ L with s_delta := { L.s_delta with sm_data := e.1 } } : SoftmaxMLE_t α)
    e.2 true
  unfold accumulateExample
  rw [hf, h]

theorem accumulateBatch_dL [Zero α] [Add α] [Mul α] (es : List (List α × List α))
    (L : SoftmaxMLE_t α) :
    (accumulateBatch L es).ml_dL =
      { L.ml_dL with
        sm_data := es.foldl
          (fun buf e => padAdd buf (bpropVals L.s_Nnodes L.s_Nin e.1 e.2)) L.ml_dL.sm_data } := by
  induction es generalizing L with
  | nil => rfl
  | cons e es ih =>
    have h1 : (accumulateExample L e).s_Nnodes = L.s_Nnodes := rfl
    have h2 : (accumulateExample L e).s_Nin = L.s_Nin := rfl
    simp only [accumulateBatch, List.foldl_cons] at ih ⊢
    rw [ih (accumulateExample L e), h1, h2, accumulateExample_dL]

theorem accumulateBatch_perm [CommRing α] (L : SoftmaxMLE_t α)
    (es₁ es₂ : List (List α × List α)) (h : es₁.Perm es₂) :
    (accumulateBatch L es₁).ml_dL = (accumulateBatch L es₂).ml_dL := by
  rw [accumulateBatch_dL, accumulateBatch_dL]
  haveI : RightCommutative
      (fun (buf : List α) (e : List α × List α) =>
        padAdd buf (bpropVals L.s_Nnodes L.s_Nin e.1 e.2)) :=
    ⟨fun buf e₁ e₂ => padAdd_right_comm buf _ _⟩
  rw [h.foldl_eq]

end SoftmaxMLE_t

/-! ## Claims about gradient accumulation -/

namespace SoftmaxMLE_t

variable {α : Type}

theorem getElem?_accumulateExample [CommRing α] (K Nin : Nat) (L : SoftmaxMLE_t α)
    (e : List α × List α)
    (hN : L.s_Nnodes = K) (hI : L.s_Nin = Nin + 1) (hlen : L.ml_dL.sm_data.length = K * (Nin + 1))
    (i j : Nat) (hi : i < K) (hj : j ≤ Nin) :
    (accumulateExample L e).ml_dL.sm_data[i * (Nin + 1) + j]? =
      some (L.ml_dL.sm_data.getD (i * (Nin + 1) + j) 0 + e.1.getD i 0 * augmented e.2 j) :=
  getElem?_bprop K Nin ({ L with s_delta := { L.s_delta with sm_data := e.1 } } : SoftmaxMLE_t α)
    e.2 true hN hI hlen i j hi hj

theorem wellFormed_sampleLayer : WellFormed 2 3 sampleLayer := by
  constructor <;> rfl

/-- C1. On a softmax/MLE layer with `K` nodes and `Nin` inputs (accumulator `K x (Nin + 1)`,
row-major), `_sAPI_bprop (x)` adds the outer product of the error signal and the
bias-augmented input into the accumulator: entry `(i, 0)` grows by `delta[i]`, entry `(i, j)`
with `1 ≤ j ≤ Nin` grows by `delta[i] * x[j-1]`; the accumulator keeps its length and nothing
else in the layer changes. Arithmetic is exact (any commutative ring). -/
theorem bprop_adds_outer_product [CommRing α] (K Nin : Nat) (L : SoftmaxMLE_t α) (x : List α)
    (activation : Bool) (hL : WellFormed K Nin L) :
    (∀ i, i < K →
      (L._sAPI_bprop x activation).ml_dL.sm_data[i * (Nin + 1)]? =
        some (L.ml_dL.sm_data.getD (i * (Nin + 1)) 0 + L.s_delta.sm_data.getD i 0)) ∧
    (∀ i j, i < K → 1 ≤ j → j ≤ Nin →
      (L._sAPI_bprop x activation).ml_dL.sm_data[i * (Nin + 1) + j]? =
        some (L.ml_dL.sm_data.getD (i * (Nin + 1) + j) 0 +
          L.s_delta.sm_data.getD i 0 * x.getD (j - 1) 0)) ∧
    (L._sAPI_bprop x activation).ml_dL.sm_data.length = K * (Nin + 1) ∧
    L._sAPI_bprop x activation =
      { L with ml_dL := { L.ml_dL with sm_data := (L._sAPI_bprop x activation).ml_dL.sm_data } } := by
  refine ⟨?_, ?_, ?_, rfl⟩
  · intro i hi
    have h := getElem?_bprop K Nin L x activation hL.nodes hL.inputs hL.dL_length i 0 hi
      (Nat.zero_le _)
    simpa [augmented] using h
  · intro i j hi hj1 hj
    have h := getElem?_bprop K Nin L x activation hL.nodes hL.inputs hL.dL_length i j hi hj
    have hj0 : j ≠ 0 := by omega
    simpa [augmented, hj0] using h
  · rw [bprop_data, length_padAdd, hL.dL_length]

/-- C1 at a concrete layer: 2 nodes, 3 inputs, input `(1, 2, 3)`; entry `(1, 2)` of the
accumulator goes from `7` to `7 + 100 * 2`. -/
theorem bprop_adds_outer_product_witness :
    WellFormed 2 3 sampleLayer ∧
    (sampleLayer._sAPI_bprop [1, 2, 3] true).ml_dL.sm_data[1 * (3 + 1) + 2]? =
      some (sampleLayer.ml_dL.sm_data.getD (1 * (3 + 1) + 2) 0 +
        sampleLayer.s_delta.sm_data.getD 1 0 * ([1, 2, 3] : List ℤ).getD (2 - 1) 0) ∧
    (sampleLayer._sAPI_bprop [1, 2, 3] true).ml_dL.sm_data =
      [11, 12, 23, 34, 105, 106, 207, 308] :=
  ⟨wellFormed_sampleLayer,
   (bprop_adds_outer_product 2 3 sampleLayer [1, 2, 3] true wellFormed_sampleLayer).2.1 1 2
     (by decide) (by decide) (by decide),
   by decide⟩

/-- C9. Gradient accumulation is additive and independent of the order of the examples:
two examples accumulated in either order give the same accumulator; any two orderings of a
batch give the same accumulator; and on a layer with `K` nodes and `Nin` inputs the
accumulator after two examples is the initial one plus the two outer products
`delta_k[i] * (1, x_k)[j]`. Arithmetic is exact (any commutative ring). -/
theorem bprop_order_independent [CommRing α] (L : SoftmaxMLE_t α) :
    (∀ e₁ e₂ : List α × List α,
      (accumulateExample (accumulateExample L e₁) e₂).ml_dL =
        (accumulateExample (accumulateExample L e₂) e₁).ml_dL) ∧
    (∀ es₁ es₂ : List (List α × List α), es₁.Perm es₂ →
      (accumulateBatch L es₁).ml_dL = (accumulateBatch L es₂).ml_dL) ∧
    (∀ K Nin : Nat, WellFormed K Nin L → ∀ (e₁ e₂ : List α × List α) (i j : Nat),
      i < K → j ≤ Nin →
      (accumulateExample (accumulateExample L e₁) e₂).ml_dL.sm_data[i * (Nin + 1) + j]? =
        some (L.ml_dL.sm_data.getD (i * (Nin + 1) + j) 0 +
          (e₁.1.getD i 0 * augmented e₁.2 j + e₂.1.getD i 0 * augmented e₂.2 j))) := by
  refine ⟨?_, ?_, ?_⟩
  · intro e₁ e₂
    exact accumulateBatch_perm L [e₁, e₂] [e₂, e₁] (List.Perm.swap e₂ e₁ [])
  · intro es₁ es₂ h
    exact accumulateBatch_perm L es₁ es₂ h
  · intro K Nin hL e₁ e₂ i j hi hj
    have h1 := getElem?_accumulateExample K Nin L e₁ hL.nodes hL.inputs hL.dL_length i j hi hj
    have hlen : (accumulateExample L e₁).ml_dL.sm_data.length = K * (Nin + 1) := by
      rw [accumulateExample_dL]
      simp only [length_padAdd]
      exact hL.dL_length
    have h2 := getElem?_accumulateExample K Nin (accumulateExample L e₁) e₂ hL.nodes hL.inputs
      hlen i j hi hj
    rw [h2, List.getD_eq_getElem?_getD, h1, Option.getD_some, add_assoc]

/-- C9 at a concrete layer: the examples `((10, 100), (1, 2, 3))` and `((1, 1), (0, 5, 0))`
in both orders. -/
theorem bprop_order_independent_witness :
    (accumulateBatch sampleLayer [([10, 100], [1, 2, 3]), ([1, 1], [0, 5, 0])]).ml_dL.sm_data =
      [12, 12, 28, 34, 106, 106, 212, 308] ∧
    (accumulateBatch sampleLayer [([1, 1], [0, 5, 0]), ([10, 100], [1, 2, 3])]).ml_dL =
      (accumulateBatch sampleLayer [([10, 100], [1, 2, 3]), ([1, 1], [0, 5, 0])]).ml_dL :=
  ⟨by decide,
   (bprop_order_independent sampleLayer).2.1 _ _ (List.Perm.swap _ _ [])⟩

end SoftmaxMLE_t

/-! ## Initialisation (`_sAPI_init`) -/

namespace SoftmaxMLE_t

theorem abs_sample_le (RAND_MAX : Nat) (r : ℝ) (hr : 0 ≤ r) (v : Fin (RAND_MAX + 1))
    (flip : Prop) [Decidable flip] :
    |if flip then -((v.val : ℝ) / (RAND_MAX : ℝ) * r) else (v.val : ℝ) / (RAND_MAX : ℝ) * r| ≤ r := by
  have h0 : (0 : ℝ) ≤ (v.val : ℝ) / (RAND_MAX : ℝ) :=
    div_nonneg (Nat.cast_nonneg _) (Nat.cast_nonneg _)
  have h1 : (v.val : ℝ) / (RAND_MAX : ℝ) ≤ 1 := by
    apply div_le_one_of_le₀
    · exact_mod_cast Nat.lt_succ_iff.mp v.isLt
    · exact Nat.cast_nonneg _
  have h2 : |(v.val : ℝ) / (RAND_MAX : ℝ) * r| ≤ r := by
    rw [abs_of_nonneg (mul_nonneg h0 hr)]
    calc (v.val : ℝ) / (RAND_MAX : ℝ) * r ≤ 1 * r := mul_le_mul_of_nonneg_right h1 hr
      _ = r := one_mul r
  split_ifs
  · rwa [abs_neg]
  · exact h2

theorem foldl_initStep {β : Type} (RAND_MAX : Nat) (r : ℝ) (hr : 0 ≤ r) (l : List β)
    (st : List ℝ × Nat × (Nat → Fin (RAND_MAX + 1))) :
    (l.foldl (fun st _ => initStep RAND_MAX r st) st).2.1 = st.2.1 + l.length ∧
    (l.foldl (fun st _ => initStep RAND_MAX r st) st).1.length = st.1.length ∧
    (∀ k, k < st.2.1 → (l.foldl (fun st _ => initStep RAND_MAX r st) st).1[k]? = st.1[k]?) ∧
    (∀ k w, st.2.1 ≤ k → k < st.2.1 + l.length →
      (l.foldl (fun st _ => initStep RAND_MAX r st) st).1[k]? = some w → |w| ≤ r) := by
  induction l generalizing st with
  | nil =>
    refine ⟨rfl, rfl, fun _ _ => rfl, ?_⟩
    intro k w h1 h2
    simp at h2
    omega
  | cons b l ih =>
    rw [List.foldl_cons]
    obtain ⟨hp, hlen, hkeep, hbound⟩ := ih (initStep RAND_MAX r st)
    have hp1 : (initStep RAND_MAX r st).2.1 = st.2.1 + 1 := rfl
    have hl1 : (initStep RAND_MAX r st).1.length = st.1.length := by simp [initStep]
    refine ⟨?_, ?_, ?_, ?_⟩
    · rw [hp, hp1, List.length_cons]
      omega
    · rw [hlen, hl1]
    · intro k hk
      rw [hkeep k (by rw [hp1]; omega)]
      have : st.2.1 ≠ k := by omega
      simp [initStep, List.getElem?_set, this]
    · intro k w h1 h2 hw
      rw [List.length_cons] at h2
      by_cases hk : k = st.2.1
      · subst hk
        rw [hkeep st.2.1 (by rw [hp1]; omega)] at hw
        simp only [initStep, rand, List.getElem?_set, eq_self_iff_true, if_true] at hw
        by_cases hin : st.2.1 < st.1.length
        · rw [if_pos hin] at hw
          obtain rfl := Option.some.inj hw
          exact abs_sample_le RAND_MAX r hr _ _
        · rw [if_neg hin] at hw
          cases hw
      · exact hbound k w (by rw [hp1]; omega) (by rw [hp1]; omega) hw

theorem length_flatMap_const {β γ : Type} (l : List β) (row : List γ) :
    (l.flatMap (fun _ => row)).length = l.length * row.length := by
  induction l with
  | nil => simp
  | cons a l ih => simp [List.flatMap_cons, ih, Nat.succ_mul, Nat.add_comm]

/-- C7. On a softmax/MLE layer with `K` nodes and input count `s_Nin`, whatever values the
random source returns, `_sAPI_init` leaves a weight buffer of `K * s_Nin` entries, each of
absolute value at most `sqrt (6 / (s_Nin + K))`, and a gradient accumulator of `K * s_Nin`
entries, each `0`. Real arithmetic, with the real square root. -/
theorem init_within_glorot_range (K Nin : Nat) (L : SoftmaxMLE_t ℝ) (hL : WellFormed K Nin L)
    (RAND_MAX : Nat) (src : Nat → Fin (RAND_MAX + 1)) :
    (L._sAPI_init Real.sqrt RAND_MAX src).1.ml_W.sm_data.length = K * L.s_Nin ∧
    (∀ w ∈ (L._sAPI_init Real.sqrt RAND_MAX src).1.ml_W.sm_data,
      |w| ≤ Real.sqrt (6 / ((L.s_Nin : ℝ) + (K : ℝ)))) ∧
    (L._sAPI_init Real.sqrt RAND_MAX src).1.ml_dL.sm_data.length = K * L.s_Nin ∧
    (∀ d ∈ (L._sAPI_init Real.sqrt RAND_MAX src).1.ml_dL.sm_data, d = 0) := by
  have hflat := foldl_foldl_flatMap
    (fun (st : List ℝ × Nat × (Nat → Fin (RAND_MAX + 1))) (_ : Nat) =>
      initStep RAND_MAX (Real.sqrt (6 / ((L.ml_softm.K + L.s_Nin : Nat) : ℝ))) st)
    (fun (_ : Nat) => (List.range L.ml_W.columns).reverse) (List.range L.ml_W.rows).reverse
    (L.ml_W.raw, 0, src)
  have hcount : ((List.range L.ml_W.rows).reverse.flatMap
      (fun (_ : Nat) => (List.range L.ml_W.columns).reverse)).length = K * (Nin + 1) := by
    rw [length_flatMap_const]
    simp [hL.W_rows, hL.W_columns]
  obtain ⟨-, hlen, -, hbound⟩ := foldl_initStep RAND_MAX
    (Real.sqrt (6 / ((L.ml_softm.K + L.s_Nin : Nat) : ℝ))) (Real.sqrt_nonneg _)
    ((List.range L.ml_W.rows).reverse.flatMap
      (fun (_ : Nat) => (List.range L.ml_W.columns).reverse)) (L.ml_W.raw, 0, src)
  have hr : Real.sqrt (6 / ((L.ml_softm.K + L.s_Nin : Nat) : ℝ)) =
      Real.sqrt (6 / ((L.s_Nin : ℝ) + (K : ℝ))) := by
    rw [hL.softm_K]
    push_cast
    rw [add_comm]
  simp only [_sAPI_init]
  rw [hflat]
  refine ⟨?_, ?_, ?_, ?_⟩
  · rw [hlen, hL.inputs]
    exact hL.W_length
  · intro w hw
    obtain ⟨k, hk, hkw⟩ := List.getElem_of_mem hw
    rw [hlen] at hk
    rw [← hr]
    refine hbound k w (Nat.zero_le _) ?_ ?_
    · rw [hcount]
      have := hL.W_length
      simp only [NeuralM_t.raw] at hk
      omega
    · rw [List.getElem?_eq_getElem (by rw [hlen]; exact hk), hkw]
  · simp [NeuralM_t.zero, hL.dL_length, hL.inputs]
  · intro d hd
    simp only [NeuralM_t.zero, List.mem_map] at hd
    obtain ⟨_, _, rfl⟩ := hd
    rfl

/-- C7 at a concrete layer: 2 nodes and 3 inputs (`s_Nin = 4`), `RAND_MAX = 32767`, a random
source that returns `32767, 1, 32767, 1, ...`. -/
theorem init_within_glorot_range_witness :
    WellFormed 2 3 (SoftmaxMLE_t.new 0 2 3 (fun _ _ => ⟨fun W dL => (W, dL)⟩) : SoftmaxMLE_t ℝ) ∧
    (∀ w ∈ ((SoftmaxMLE_t.new 0 2 3 (fun _ _ => ⟨fun W dL => (W, dL)⟩) :
        SoftmaxMLE_t ℝ)._sAPI_init Real.sqrt 32767
          (fun n => if n % 2 = 0 then 32767 else 1)).1.ml_W.sm_data,
      |w| ≤ Real.sqrt (6 / (((3 + 1 : Nat) : ℝ) + ((2 : Nat) : ℝ)))) :=
  ⟨wellFormed_new 0 2 3 _,
   (init_within_glorot_range 2 3 (SoftmaxMLE_t.new 0 2 3 (fun _ _ => ⟨fun W dL => (W, dL)⟩))
     (wellFormed_new 0 2 3 _) 32767 (fun n => if n % 2 = 0 then 32767 else 1)).2.1⟩

end SoftmaxMLE_t

/-! ## Loss, strategy, trainable count -/

namespace SoftmaxMLE_t

variable {α : Type}

/-- C2. `_sAPI_Loss` returns `-log (P)`, `P` the probability the layer assigns to the true
label, when that value is neither NaN nor infinite, and the sentinel `1000000` when it is NaN
or infinite (as when `log` returns minus infinity, which is what it does at `P = 0`); so the
returned loss is never NaN and never infinite. -/
theorem loss_is_clamped (log : IEEE_t → IEEE_t) (P : Softmax_t IEEE_t → IEEE_t → IEEE_t)
    (bprop : Softmax_t IEEE_t → IEEE_t → List IEEE_t → List IEEE_t)
    (self : SoftmaxMLE_t IEEE_t) (label : IEEE_t) (rest : List IEEE_t) :
    (((log (P self.ml_softm label)).neg.isnan = false ∧
        (log (P self.ml_softm label)).neg.isinf = false) →
      (_sAPI_Loss log P bprop self (label :: rest)).1 = (log (P self.ml_softm label)).neg) ∧
    (((log (P self.ml_softm label)).neg.isnan = true ∨
        (log (P self.ml_softm label)).neg.isinf = true) →
      (_sAPI_Loss log P bprop self (label :: rest)).1 = IEEE_t.finite 1000000) ∧
    (log (P self.ml_softm label) = IEEE_t.infinite true →
      (_sAPI_Loss log P bprop self (label :: rest)).1 = IEEE_t.finite 1000000) ∧
    (_sAPI_Loss log P bprop self (label :: rest)).1.isnan = false ∧
    (_sAPI_Loss log P bprop self (label :: rest)).1.isinf = false := by
  simp only [_sAPI_Loss, List.headD_cons]
  cases h : log (P self.ml_softm label) <;>
    simp [IEEE_t.neg, IEEE_t.isnan, IEEE_t.isinf]

/-- C4, the claim as stated fails: a layer fresh from its constructor is frozen and owns a
strategy; with weights `(5, 5, 5, 5)` and accumulated gradient `(1, 2, 3, 4)`,
`_sAPI_strategy` changes the weights to `(4, 3, 2, 1)`. -/
theorem strategy_updates_frozen_layer :
    ({ SoftmaxMLE_t.new 0 1 3 (fun _ _ => descent) with
        ml_W := { rows := 1, columns := 4, sm_data := [5, 5, 5, 5] }
        ml_dL := { rows := 1, columns := 4, sm_data := [1, 2, 3, 4] } } :
      SoftmaxMLE_t ℤ).s_frozen = true ∧
    (({ SoftmaxMLE_t.new 0 1 3 (fun _ _ => descent) with
        ml_W := { rows := 1, columns := 4, sm_data := [5, 5, 5, 5] }
        ml_dL := { rows := 1, columns := 4, sm_data := [1, 2, 3, 4] } } :
      SoftmaxMLE_t ℤ)._sAPI_strategy).ml_W.sm_data = [4, 3, 2, 1] ∧
    (({ SoftmaxMLE_t.new 0 1 3 (fun _ _ => descent) with
        ml_W := { rows := 1, columns := 4, sm_data := [5, 5, 5, 5] }
        ml_dL := { rows := 1, columns := 4, sm_data := [1, 2, 3, 4] } } :
      SoftmaxMLE_t ℤ)._sAPI_strategy).ml_W.sm_data ≠ [5, 5, 5, 5] := by
  refine ⟨rfl, by decide, by decide⟩

/-- C4 as amended. `_sAPI_strategy` never reads the frozen flag: a stratum that owns no
strategy is left as it is; a stratum that owns one gets the weights and the accumulator the
strategy computes from the current weights and accumulator, frozen or not; the flag itself is
kept. -/
theorem strategy_ignores_frozen (L : SoftmaxMLE_t α) :
    (L.s_strat = none → L._sAPI_strategy = L) ∧
    (∀ strat, L.s_strat = some strat →
      (L._sAPI_strategy).ml_W.sm_data =
          (strat._tAPI_strategy L.ml_W.sm_data L.ml_dL.sm_data).1 ∧
      (L._sAPI_strategy).ml_dL.sm_data =
          (strat._tAPI_strategy L.ml_W.sm_data L.ml_dL.sm_data).2) ∧
    (L.Freeze._sAPI_strategy).ml_W = (L.Thaw._sAPI_strategy).ml_W ∧
    (L.Freeze._sAPI_strategy).ml_dL = (L.Thaw._sAPI_strategy).ml_dL ∧
    (L._sAPI_strategy).s_frozen = L.s_frozen := by
  refine ⟨?_, ?_, ?_, ?_, ?_⟩
  · intro h
    simp [_sAPI_strategy, h]
  · intro strat h
    simp [_sAPI_strategy, h]
  · cases h : L.s_strat <;> simp [_sAPI_strategy, Freeze, Thaw, stratum_t.Freeze, stratum_t.Thaw, h]
  · cases h : L.s_strat <;> simp [_sAPI_strategy, Freeze, Thaw, stratum_t.Freeze, stratum_t.Thaw, h]
  · cases h : L.s_strat <;> simp [_sAPI_strategy, h]

/-- C5, the code at the failing input: a softmax/MLE layer with 3 nodes and 4 inputs holds a
weight matrix of `3 * (4 + 1) = 15` entries, which the network constructor counts as
trainable, and `_sAPI_Trainable` returns `0` for it. -/
theorem trainable_is_zero_on_softmax :
    (SoftmaxMLE_t.new 0 3 4 (fun _ _ => descent))._sAPI_Trainable = 0 ∧
    (SoftmaxMLE_t.new 0 3 4 (fun _ _ => descent)).ml_W.sm_data.length = 3 * (4 + 1) ∧
    (NNet_t.new [4, 3] 2 (fun K Nin => SoftmaxMLE_t.new 0 K Nin (fun _ _ => descent))
      (fun s _ => s)).n_Nweights = 3 * (4 + 1) := by
  refine ⟨rfl, by decide, by decide⟩

end SoftmaxMLE_t

/-! ## Activation policies and their derivatives -/

theorem hasDerivAt_sigmoid (x : ℝ) :
    HasDerivAt (SIGMOID_FN Real.exp) (SIGMOID_DERIV (SIGMOID_FN Real.exp x)) x := by
  have hpos : (1 : ℝ) + Real.exp (-x) ≠ 0 := by positivity
  have hneg : HasDerivAt (fun t : ℝ => -t) (-1) x := (hasDerivAt_id x).neg
  have hexp : HasDerivAt (fun t : ℝ => Real.exp (-t)) (Real.exp (-x) * -1) x :=
    (Real.hasDerivAt_exp (-x)).comp x hneg
  have hden : HasDerivAt (fun t : ℝ => 1 + Real.exp (-t)) (Real.exp (-x) * -1) x := by
    simpa using hexp.const_add 1
  have h := (hasDerivAt_const x (1 : ℝ)).div hden hpos
  have hfun : SIGMOID_FN Real.exp = fun t : ℝ => 1 / (1 + Real.exp (-t)) := rfl
  rw [hfun]
  convert h using 1
  simp only [SIGMOID_DERIV]
  field_simp
  ring

theorem hasDerivAt_tanh (x : ℝ) : HasDerivAt Real.tanh (1 - Real.tanh x * Real.tanh x) x := by
  have hc : Real.cosh x ≠ 0 := (Real.cosh_pos x).ne'
  have h := (Real.hasDerivAt_sinh x).div (Real.hasDerivAt_cosh x) hc
  have e : 1 - Real.tanh x * Real.tanh x =
      (Real.cosh x * Real.cosh x - Real.sinh x * Real.sinh x) / Real.cosh x ^ 2 := by
    rw [Real.tanh_eq_sinh_div_cosh]
    field_simp
    left
    ring
  have hfun : Real.tanh = fun t => Real.sinh t / Real.cosh t := by
    funext t
    exact Real.tanh_eq_sinh_div_cosh t
  rw [e, hfun]
  exact h

theorem hasDerivAt_relu (x : ℝ) (hx : x ≠ 0) :
    HasDerivAt (fun t : ℝ => if t < 0 then 0 else t)
      (if (if x < 0 then 0 else x) > 0 then 1 else 0) x := by
  rcases lt_or_gt_of_ne hx with h | h
  · have hev : (fun t : ℝ => if t < 0 then 0 else t) =ᶠ[nhds x] fun _ => (0 : ℝ) := by
      filter_upwards [Iio_mem_nhds h] with t ht
      simp [Set.mem_Iio.mp ht]
    have hval : (if (if x < 0 then (0 : ℝ) else x) > 0 then (1 : ℝ) else 0) = 0 := by
      simp [h]
    rw [hval]
    exact (hasDerivAt_const x (0 : ℝ)).congr_of_eventuallyEq hev
  · have hev : (fun t : ℝ => if t < 0 then 0 else t) =ᶠ[nhds x] fun t => t := by
      filter_upwards [Ioi_mem_nhds h] with t ht
      have : ¬ t < 0 := not_lt.mpr (le_of_lt (Set.mem_Ioi.mp ht))
      simp [this]
    have hval : (if (if x < 0 then (0 : ℝ) else x) > 0 then (1 : ℝ) else 0) = 1 := by
      have : ¬ x < 0 := not_lt.mpr (le_of_lt h)
      simp [this, h]
    rw [hval]
    exact (hasDerivAt_id x).congr_of_eventuallyEq hev

/-- C10. Under every activation policy `DERIVATIVE_FN`, applied to the output
`y = ACTIVATION_FN (x)`, is the derivative of `ACTIVATION_FN` at `x`: `y * (1 - y)` for the
sigmoid, `1 - y * y` for tanh, `1` for the identity, and `1 if y > 0 else 0` for the
rectified-linear unit at every `x ≠ 0`. Real arithmetic, with the real `exp` and `tanh`. -/
theorem derivative_fn_is_derivative (p : Activation) (x : ℝ)
    (hx : p = Activation.relu → x ≠ 0) :
    HasDerivAt (ACTIVATION_FN Real.exp Real.tanh p)
      (DERIVATIVE_FN p (ACTIVATION_FN Real.exp Real.tanh p x)) x := by
  cases p with
  | sigmoid => exact hasDerivAt_sigmoid x
  | tanh => exact hasDerivAt_tanh x
  | relu => exact hasDerivAt_relu x (hx rfl)
  | identity => exact hasDerivAt_id x

/-- C10 at concrete inputs: the rectified-linear unit at `x = 2` has derivative `1`, which is
what `DERIVATIVE_FN` gives on the output `2`. -/
theorem derivative_fn_is_derivative_witness :
    HasDerivAt (ACTIVATION_FN Real.exp Real.tanh Activation.relu)
      (DERIVATIVE_FN Activation.relu (ACTIVATION_FN Real.exp Real.tanh Activation.relu 2)) 2 ∧
    DERIVATIVE_FN Activation.relu (ACTIVATION_FN Real.exp Real.tanh Activation.relu (2 : ℝ)) = 1 :=
  ⟨derivative_fn_is_derivative Activation.relu 2 (fun _ => by norm_num),
   by norm_num [DERIVATIVE_FN, ACTIVATION_FN]⟩

/-! ## The network constructor -/

namespace NNet_t

variable {α : Type}

theorem getElem?_strata_new {S : Type} (width : List Nat) (levels : Nat) (alloc : Nat → Nat → S)
    (init : S → Nat → S) (k : Nat) (hk : k < levels - 1) :
    (NNet_t.new width levels alloc init).n_strata[k]? =
      some (init (alloc (width.getD (k + 1) 0) (width.getD k 0))
        (if k + 1 < levels - 1 then width.getD (k + 2) 0 else width.getD (k + 1) 0)) := by
  simp only [NNet_t.new, List.getElem?_map, List.getElem?_range' _ _ hk]
  simp [Nat.add_comm 1 k]

theorem getElem?_strata_new_none {S : Type} (width : List Nat) (levels : Nat)
    (alloc : Nat → Nat → S) (init : S → Nat → S) (k : Nat) (hk : levels - 1 ≤ k) :
    (NNet_t.new width levels alloc init).n_strata[k]? = none := by
  simp [NNet_t.new, hk]

/-- C3, the claim as stated fails: for the widths `(4, 8, 3)` the first stratum has input
count `5`, not the input width `4`, and the second has input count `9`, not the node count `8`
of the first; the invariant in the specification's words does not hold. -/
theorem spec_invariant_fails :
    (NNet_t.new [4, 8, 3] 3 (fun K Nin => SoftmaxMLE_t.new 0 K Nin (fun _ _ => SoftmaxMLE_t.descent))
        (fun s _ => s)).n_Nin = 4 ∧
    (NNet_t.new [4, 8, 3] 3 (fun K Nin => SoftmaxMLE_t.new 0 K Nin (fun _ _ => SoftmaxMLE_t.descent))
        (fun s _ => s)).n_strata.map (fun s => (s.s_Nnodes, s.s_Nin)) = [(8, 5), (3, 9)] ∧
    ¬ SpecInvariant
      (NNet_t.new [4, 8, 3] 3 (fun K Nin => SoftmaxMLE_t.new 0 K Nin (fun _ _ => SoftmaxMLE_t.descent))
        (fun s _ => s)) := by
  refine ⟨rfl, by decide, ?_⟩
  rintro ⟨⟨first, hfirst, hin⟩, -, -⟩
  rw [getElem?_strata_new _ _ _ _ 0 (by decide)] at hfirst
  cases hfirst
  revert hin
  decide

/-- C3 as amended. For every width specification with `levels ≥ 2` and the allocation rule
that builds a softmax/MLE layer from `(width[i], width[i-1])`, the constructed network has
`levels - 1` strata, the first with `s_Nin = n_Nin + 1`, the last with `s_Nnodes = n_Nout`,
and every stratum with `s_Nin` one more than the node count of its predecessor: `s_Nin`
counts the bias input. `init` is any member that keeps the node and input counts. -/
theorem constructor_establishes_bias_invariant [Zero α] [One α] [Neg α]
    (width : List Nat) (levels : Nat) (ID : Int) (rule : StrategyAlloc_t α)
    (init : SoftmaxMLE_t α → Nat → SoftmaxMLE_t α)
    (hlevels : 2 ≤ levels)
    (hinit : ∀ s n, (init s n).s_Nnodes = s.s_Nnodes ∧ (init s n).s_Nin = s.s_Nin) :
    (NNet_t.new width levels (fun K Nin => SoftmaxMLE_t.new ID K Nin rule) init).n_strata.length =
      levels - 1 ∧
    BiasInvariant (NNet_t.new width levels (fun K Nin => SoftmaxMLE_t.new ID K Nin rule) init) := by
  have hdims : ∀ K Nin n, (init (SoftmaxMLE_t.new ID K Nin rule) n).s_Nnodes = K ∧
      (init (SoftmaxMLE_t.new ID K Nin rule) n).s_Nin = Nin + 1 := by
    intro K Nin n
    rw [(hinit _ n).1, (hinit _ n).2]
    exact ⟨rfl, rfl⟩
  refine ⟨by simp [NNet_t.new], ⟨_, getElem?_strata_new _ _ _ _ 0 (by omega), ?_⟩,
    ⟨_, getElem?_strata_new _ _ _ _ (levels - 1 - 1) (by simp [NNet_t.new]; omega), ?_⟩, ?_⟩
  · rw [(hdims _ _ _).2]
    rfl
  · rw [(hdims _ _ _).1]
    have : levels - 1 - 1 + 1 = levels - 1 := by omega
    simp [NNet_t.new, this]
  · intro i a b ha hb
    by_cases hi : i + 1 < levels - 1
    · rw [getElem?_strata_new _ _ _ _ i (by omega)] at ha
      rw [getElem?_strata_new _ _ _ _ (i + 1) hi] at hb
      cases ha
      cases hb
      rw [(hdims _ _ _).1, (hdims _ _ _).2]
    · rw [getElem?_strata_new_none _ _ _ _ (i + 1) (by omega)] at hb
      cases hb

/-- C3 as amended, at the widths `(4, 8, 3)`. -/
theorem constructor_establishes_bias_invariant_witness :
    (NNet_t.new [4, 8, 3] 3 (fun K Nin => SoftmaxMLE_t.new 0 K Nin (fun _ _ => SoftmaxMLE_t.descent))
        (fun s _ => s)).n_strata.length = 3 - 1 ∧
    BiasInvariant
      (NNet_t.new [4, 8, 3] 3 (fun K Nin => SoftmaxMLE_t.new 0 K Nin (fun _ _ => SoftmaxMLE_t.descent))
        (fun s _ => s)) :=
  constructor_establishes_bias_invariant [4, 8, 3] 3 0 (fun _ _ => SoftmaxMLE_t.descent)
    (fun s _ => s) (by decide) (fun _ _ => ⟨rfl, rfl⟩)

end NNet_t

/-! ## `SetNormalize` -/

namespace NNet_t

variable {S : Type}

theorem length_storeNorm (D : DataSet_t) (params : List IEEE_t) (i : Nat) :
    (storeNorm D params i).length = params.length := by
  simp [storeNorm]

theorem length_foldl_storeNorm (D : DataSet_t) (n : Nat) (params : List IEEE_t) :
    ((List.range n).foldl (storeNorm D) params).length = params.length := by
  induction n with
  | zero => rfl
  | succ n ih => rw [List.range_succ, List.foldl_append, List.foldl_cons, List.foldl_nil,
      length_storeNorm, ih]

theorem getElem?_foldl_storeNorm (D : DataSet_t) (n : Nat) (params : List IEEE_t)
    (hlen : n * 2 ≤ params.length) (i : Nat) (hi : i < n) :
    ((List.range n).foldl (storeNorm D) params)[i * 2]? = some (D.Mean i) ∧
    ((List.range n).foldl (storeNorm D) params)[i * 2 + 1]? = some (D.StdDev i) := by
  induction n with
  | zero => omega
  | succ n ih =>
    rw [List.range_succ, List.foldl_append, List.foldl_cons, List.foldl_nil]
    have hl := length_foldl_storeNorm D n params
    by_cases hin : i < n
    · obtain ⟨h1, h2⟩ := ih (by omega) hin
      have e1 : n * 2 + 1 ≠ i * 2 := by omega
      have e2 : n * 2 ≠ i * 2 := by omega
      have e3 : n * 2 + 1 ≠ i * 2 + 1 := by omega
      have e4 : n * 2 ≠ i * 2 + 1 := by omega
      simp only [storeNorm, List.getElem?_set, e1, e2, e3, e4, if_false, h1, h2, and_self]
    · have : i = n := by omega
      subst this
      have b1 : i * 2 < ((List.range i).foldl (storeNorm D) params).length := by omega
      have b2 : i * 2 + 1 < ((List.range i).foldl (storeNorm D) params).length := by omega
      have e1 : i * 2 + 1 ≠ i * 2 := by omega
      simp [storeNorm, List.getElem?_set, b1, b2, e1]

theorem foldl_normParams (D : DataSet_t) (l : List Nat) (net : NNet_t S) :
    l.foldl (fun (net : NNet_t S) i =>
        { net with n_normParams := net.n_normParams.map (fun p => storeNorm D p i) }) net =
      { net with n_normParams := net.n_normParams.map (fun p => l.foldl (storeNorm D) p) } := by
  induction l generalizing net with
  | nil => cases net; simp
  | cons a l ih =>
    rw [List.foldl_cons, ih]
    cases h : net.n_normParams <;> simp [h]

/-- C6. `SetNormalize (S)` on a network of input width `n`: when `S.Nin () ≠ n` the assertion
fails with the network untouched; when `S.Nin () = n` it succeeds, sets `n_normalize`, and
leaves a parameter array of length `2 n` with `n_normParams[2 i] = S.Mean (i)` and
`n_normParams[2 i + 1] = S.StdDev (i)` for every `i < n`, while the halt threshold, accuracy
flag, iteration limit, keep-alive, SGD settings, step counter, strata and morphology keep
their values. -/
theorem setNormalize_contract (net : NNet_t S) (D : DataSet_t) (uninit : IEEE_t) :
    (D.Nin ≠ net.n_Nin → net.SetNormalize D uninit = Except.error net) ∧
    (D.Nin = net.n_Nin → ∃ net₁ params,
      net.SetNormalize D uninit = Except.ok net₁ ∧
      net₁.n_normalize = true ∧
      net₁.n_normParams = some params ∧
      params.length = net.n_Nin * 2 ∧
      (∀ i, i < net.n_Nin →
        params[i * 2]? = some (D.Mean i) ∧ params[i * 2 + 1]? = some (D.StdDev i)) ∧
      net₁.n_halt = net.n_halt ∧ net₁.n_accuracy = net.n_accuracy ∧
      net₁.n_maxIterations = net.n_maxIterations ∧ net₁.n_keepalive = net.n_keepalive ∧
      net₁.n_useSGD = net.n_useSGD ∧ net₁.n_SGDn = net.n_SGDn ∧
      net₁.n_SGDsamples = net.n_SGDsamples ∧ net₁.n_steps = net.n_steps ∧
      net₁.n_strata = net.n_strata ∧ net₁.n_error = net.n_error ∧
      net₁.n_Nin = net.n_Nin ∧ net₁.n_Nout = net.n_Nout ∧ net₁.n_levels = net.n_levels ∧
      net₁.n_width = net.n_width ∧ net₁.n_Nweights = net.n_Nweights) := by
  constructor
  · intro h
    simp [SetNormalize, h]
  · intro h
    have hlen : ((List.range net.n_Nin).foldl (storeNorm D)
        (List.replicate (net.n_Nin * 2) uninit)).length = net.n_Nin * 2 := by
      rw [length_foldl_storeNorm, List.length_replicate]
    refine ⟨{ net with
        n_normalize := true
        n_normParams := some ((List.range net.n_Nin).foldl (storeNorm D)
          (List.replicate (net.n_Nin * 2) uninit))
        n_arg := some (List.replicate net.n_Nin uninit) },
      (List.range net.n_Nin).foldl (storeNorm D) (List.replicate (net.n_Nin * 2) uninit), ?_, ?_⟩
    · simp only [SetNormalize, h, ne_eq, not_true_eq_false, if_false]
      rw [foldl_normParams]
      rfl
    · refine ⟨rfl, rfl, hlen, ?_, rfl, rfl, rfl, rfl, rfl, rfl, rfl, rfl, rfl, rfl, rfl, rfl,
        rfl, rfl, rfl⟩
      intro i hi
      exact getElem?_foldl_storeNorm D net.n_Nin _ (by simp) i hi

/-- C6 at a concrete network and dataset: input width `2`, means `(1, 2)`, deviations
`(3, 4)`; and a dataset of width `3`, which is refused. -/
theorem setNormalize_contract_witness :
    (((NNet_t.new [2, 3] 2
          (fun K Nin => SoftmaxMLE_t.new 0 K Nin (fun _ _ => SoftmaxMLE_t.descent))
          (fun s _ => s)).SetNormalize
        { Nin := 2, Mean := fun i => IEEE_t.finite (i + 1),
          StdDev := fun i => IEEE_t.finite (i + 3) } IEEE_t.nan).toOption.map
      (fun net => (net.n_normalize, net.n_normParams))) =
      some (true, some [IEEE_t.finite 1, IEEE_t.finite 3, IEEE_t.finite 2, IEEE_t.finite 4]) ∧
    ((NNet_t.new [2, 3] 2
          (fun K Nin => SoftmaxMLE_t.new 0 K Nin (fun _ _ => SoftmaxMLE_t.descent))
          (fun s _ => s)).SetNormalize
        { Nin := 3, Mean := fun i => IEEE_t.finite (i + 1),
          StdDev := fun i => IEEE_t.finite (i + 3) } IEEE_t.nan).toOption.isNone = true :=
  ⟨by
    simp [NNet_t.new, SetNormalize, storeNorm, List.range_succ, Except.toOption]
    norm_num,
   by
    have h := (setNormalize_contract (NNet_t.new [2, 3] 2
          (fun K Nin => SoftmaxMLE_t.new 0 K Nin (fun _ _ => SoftmaxMLE_t.descent))
          (fun s _ => s))
        { Nin := 3, Mean := fun i => IEEE_t.finite (i + 1),
          StdDev := fun i => IEEE_t.finite (i + 3) } IEEE_t.nan).1 (by decide)
    rw [h]
    rfl⟩

end NNet_t

end ANT
